import Mathlib

/-!
Deferred data: local registry and Redis coordinator.

A shallow embedding of `local_deferred.go` and `redis_deferred.go`.

* Go maps keyed by tickets are association lists with `mapGet`, `mapSet`, `mapDelete`.
* Promises (`async.Promise[T]`) and Go channels are heap cells addressed by a handle; the
  map stores the handle, the goroutine blocked in `Await` keeps it.
* A blocking call is split at its suspension point: `Await` registers and hands back the
  handle, `futureGet` / `awaitReturn` say what the blocked call returns once the cell is
  settled (`none` while it is still blocked).
-/

namespace Deferred

/-! ## Go primitives -/

/-- Go error value built by `errors.New`, identified by its message. -/
structure GoError where
  msg : String
deriving DecidableEq, Repr

/-- Go `errors.New(text)`. -/
def errorsNew (text : String) : GoError := ⟨text⟩

/-- Go map read `v, ok := m[key]`. -/
def mapGet {α : Type} : List (String × α) → String → Option α
  | [], _ => none
  | (k, v) :: rest, key => if k = key then some v else mapGet rest key

/-- Go `delete(m, key)`. -/
def mapDelete {α : Type} : List (String × α) → String → List (String × α)
  | [], _ => []
  | (k, v) :: rest, key =>
    if k = key then mapDelete rest key else (k, v) :: mapDelete rest key

/-- Go map write `m[key] = v`: the previous binding of `key`, if any, is replaced. -/
def mapSet {α : Type} (m : List (String × α)) (key : String) (v : α) : List (String × α) :=
  (key, v) :: mapDelete m key


/-! ## Promises and futures of `github.com/reugn/async` -/

/-- What `future.complete(value, err)` sends on the `done chan any` of the future: the
error when `err` is not nil, the value otherwise. `E` is the type of the non-nil error
values handed to `Reject`; `none : Option E` is the nil error. -/
inductive Completion (T E : Type)
  | err (e : E)
  | val (v : T)
deriving DecidableEq, Repr

/-- Content of a promise: `none` while pending, `some r` once `r` has been sent on the
`done` channel of its future. -/
abbrev Promise (T E : Type) := Option (Completion T E)

/-- The library's `future.complete(value, err)`, reached through the `sync.Once` of the
promise: a pending promise sends `err` when it is not nil and `value` otherwise; a
completed one is left alone. -/
def Future.complete {T E : Type} (p : Promise T E) (value : T) (err : Option E) :
    Promise T E :=
  match p with
  | some r => some r
  | none =>
    match err with
    | some e => some (.err e)
    | none => some (.val value)

/-- Go `promise.Success(value)`: `future.complete(value, nil)`. -/
def Promise.Success {T E : Type} (p : Promise T E) (value : T) : Promise T E :=
  Future.complete p value none

/-- Go `promise.Failure(err)`: `future.complete(zero, err)` with the zero value of `T`. -/
def Promise.Failure {T E : Type} [Inhabited T] (p : Promise T E) (err : Option E) :
    Promise T E :=
  Future.complete p default err

/-- What the type switch of the future asks the runtime about a value of type `T` boxed
into `any`: `isNil v` says that `v` is the nil value of an interface type `T` (the boxed
value is then the nil interface), `asError v` is `v` seen through `case error:` (`none`
when its dynamic type does not implement `error`). -/
structure ValueInfo (T E : Type) where
  isNil : T → Bool
  asError : T → Option E

/-- The value information of a concrete type that does not implement `error`, such as
`int`. -/
def plainValueInfo (T E : Type) : ValueInfo T E :=
  { isNil := fun _ => false, asError := fun _ => none }

/-- The value information of `T = error`: a value is nil or an error, and every non-nil
one matches `case error:`. -/
def errorValueInfo : ValueInfo (Option GoError) GoError :=
  { isNil := fun v => v.isNone, asError := fun v => v }

/-- How `Future().Get()` ends: it returns `(value, err)`, or the type assertion
`value.(T)` of the library panics. -/
inductive GetOutcome (T E : Type)
  | returned (value : T) (err : Option E)
  | panicked
deriving DecidableEq, Repr

/-- The library's `future.setResult(result)` followed by `return fut.value, fut.err`:
`switch value := result.(type)` with `case error: fut.err = value` and
`default: fut.value = value.(T)`. A sent error, and a sent value that implements `error`,
come back as `(zero, err)`; the nil interface matches no case and panics in `value.(T)`. -/
def Future.setResult {T E : Type} [Inhabited T] (info : ValueInfo T E)
    (result : Completion T E) : GetOutcome T E :=
  match result with
  | .err e => .returned default (some e)
  | .val v =>
    if info.isNil v then .panicked
    else
      match info.asError v with
      | some e => .returned default (some e)
      | none => .returned v none

/-! ## `local_deferred.go` -/

/-- The struct `LocalDeferred[T]`: `promisesMap` binds a ticket to the handle of a promise,
`heap` holds every promise allocated so far (a handle is an index into it). The mutex is
rendered by each operation being one atomic step. -/
structure LocalDeferred (T E : Type) where
  promisesMap : List (String × Nat)
  heap : List (Promise T E)

/-- Go `NewLocalDeferred`. -/
def NewLocalDeferred (T E : Type) : LocalDeferred T E :=
  { promisesMap := [], heap := [] }

/-- The promise with handle `h`. -/
def LocalDeferred.promise {T E : Type} (d : LocalDeferred T E) (h : Nat) : Promise T E :=
  match d.heap[h]? with
  | some p => p
  | none => none

/-- Go `promise.Future().Get()` on the promise with handle `h`: `none` while the caller is
still blocked, otherwise how the call ends. -/
def LocalDeferred.futureGet {T E : Type} [Inhabited T] (info : ValueInfo T E)
    (d : LocalDeferred T E) (h : Nat) : Option (GetOutcome T E) :=
  match d.promise h with
  | some result => some (Future.setResult info result)
  | none => none

/-- Go `LocalDeferred.Resolve`: the new state and the returned error. -/
def LocalDeferred.Resolve {T E : Type} (d : LocalDeferred T E) (ticket : String)
    (value : T) : LocalDeferred T E × Option GoError :=
  match mapGet d.promisesMap ticket with
  | some promise =>
    ({ promisesMap := mapDelete d.promisesMap ticket,
       heap := d.heap.set promise (Promise.Success (d.promise promise) value) }, none)
  | none => (d, some (errorsNew "ticket's promise not found"))

/-- Go `LocalDeferred.Reject`: the new state and the returned error. -/
def LocalDeferred.Reject {T E : Type} [Inhabited T] (d : LocalDeferred T E)
    (ticket : String) (err : Option E) : LocalDeferred T E × Option GoError :=
  match mapGet d.promisesMap ticket with
  | some promise =>
    ({ promisesMap := mapDelete d.promisesMap ticket,
       heap := d.heap.set promise (Promise.Failure (d.promise promise) err) }, none)
  | none => (d, some (errorsNew "ticket's promise not found"))

/-- Go `LocalDeferred.Await` up to its suspension point: allocates a fresh promise, binds the
ticket to it and returns its handle; the call then blocks in `futureGet` on that handle. -/
def LocalDeferred.Await {T E : Type} (d : LocalDeferred T E) (ticket : String) :
    LocalDeferred T E × Nat :=
  ({ promisesMap := mapSet d.promisesMap ticket d.heap.length,
     heap := d.heap ++ [none] }, d.heap.length)

/-- A run of `Await` calls, one per ticket of the list in list order; returns the final
state and, per call, its ticket with the handle it blocks on. -/
def LocalDeferred.awaitAll {T E : Type} (d : LocalDeferred T E) :
    List String → LocalDeferred T E × List (String × Nat)
  | [] => (d, [])
  | t :: ts =>
    let r := (d.Await t).1.awaitAll ts
    (r.1, (t, (d.Await t).2) :: r.2)

/-- A run of `Resolve` calls in list order; returns the final state and the error each
call returned. -/
def LocalDeferred.resolveAll {T E : Type} (d : LocalDeferred T E) :
    List (String × T) → LocalDeferred T E × List (Option GoError)
  | [] => (d, [])
  | (t, v) :: rest =>
    let r := (d.Resolve t v).1.resolveAll rest
    (r.1, (d.Resolve t v).2 :: r.2)

/-- The registry invariant used for runs of calls: `hs` lists the outstanding waits as
(ticket, handle) pairs; each is bound in the map to its handle, its promise is allocated
and pending, two tickets never share a handle, and the map binds nothing else. -/
def LocalDeferred.Outstanding {T E : Type} (d : LocalDeferred T E)
    (hs : List (String × Nat)) : Prop :=
  (∀ t h, (t, h) ∈ hs → mapGet d.promisesMap t = some h ∧ d.heap[h]? = some none) ∧
  (∀ t u h, (t, h) ∈ hs → (u, h) ∈ hs → t = u) ∧
  (∀ e, e ∈ d.promisesMap → ∃ h, (e.1, h) ∈ hs)

/-! ## Byte strings, `fmt.Sprintf("%d", _)` and `strconv.Atoi` (64-bit `int`) -/

/-- Go `[]byte` and the bytes of a Go `string`. -/
abbrev Bytes := List (Fin 256)

/-- The byte `'0' + d`. -/
def digitByte (d : Nat) : Fin 256 := Fin.ofNat (48 + d)

/-- The digit loop of `fmt`'s integer formatting in base 10: the decimal digits of `u`,
most significant first, put in front of `acc`. `fuel` bounds the loop; 20 digits hold
every `uint64`. -/
def fmtDecimal : Nat → Nat → Bytes → Bytes
  | 0, _, acc => acc
  | fuel + 1, u, acc =>
    if 10 ≤ u then fmtDecimal fuel (u / 10) (digitByte (u % 10) :: acc)
    else digitByte u :: acc

/-- Go `fmt.Sprintf("%d", i)` as bytes: a minus sign for a negative `i`, then the digits of
its magnitude. -/
def sprintfD (i : Int) : Bytes :=
  if i < 0 then 45 :: fmtDecimal 20 i.natAbs [] else fmtDecimal 20 i.natAbs []

/-- The two causes of a `*strconv.NumError`: `ErrSyntax` and `ErrRange`. -/
inductive NumErrKind
  | invalid
  | outOfRange
deriving DecidableEq, Repr

/-- The hexadecimal digit of `n`, lower case. -/
def hexDigit (n : Nat) : Char :=
  if n < 10 then Char.ofNat (48 + n) else Char.ofNat (87 + n)

/-- One byte of a string as `strconv.Quote` writes it: the double quote and the backslash
are escaped with a backslash, a printable ASCII byte is kept, the control bytes 7 to 13
get their letter escape, every other byte is written `\xNN`. A byte from 128 on is
written `\xNN` too, which is what `Quote` does with a byte that is not valid UTF-8; the
bytes of a valid multi-byte rune are not put together again here. -/
def quoteByte (b : Fin 256) : List Char :=
  if b.val = 34 then [Char.ofNat 92, Char.ofNat 34]
  else if b.val = 92 then [Char.ofNat 92, Char.ofNat 92]
  else if 32 ≤ b.val ∧ b.val < 127 then [Char.ofNat b.val]
  else if b.val = 7 then [Char.ofNat 92, 'a']
  else if b.val = 8 then [Char.ofNat 92, 'b']
  else if b.val = 12 then [Char.ofNat 92, 'f']
  else if b.val = 10 then [Char.ofNat 92, 'n']
  else if b.val = 13 then [Char.ofNat 92, 'r']
  else if b.val = 9 then [Char.ofNat 92, 't']
  else if b.val = 11 then [Char.ofNat 92, 'v']
  else [Char.ofNat 92, 'x', hexDigit (b.val / 16), hexDigit (b.val % 16)]

/-- Text of a byte string as `strconv.Quote` writes it, between double quotes. -/
def quoteBytes (s : Bytes) : String :=
  "\"" ++ String.mk (s.map quoteByte).flatten ++ "\""

/-- The error `&NumError{fn, s, kind}` with the message `NumError.Error` gives it. -/
def numError (fn : String) (s : Bytes) (kind : NumErrKind) : GoError :=
  errorsNew ("strconv." ++ fn ++ ": parsing " ++ quoteBytes s ++ ": " ++
    (match kind with
     | .invalid => "invalid syntax"
     | .outOfRange => "value out of range"))

/-- The digit loop of the fast path of `strconv.Atoi`: `ch -= '0'` is byte arithmetic,
`none` is the syntax error. The path is taken for fewer than 19 bytes only, so
`n*10 + int(ch)` stays below `10 ^ 18` and never wraps; the accumulator is a `Nat`. -/
def atoiFastLoop : Bytes → Nat → Option Nat
  | [], n => some n
  | ch :: rest, n =>
    if 9 < (ch - 48).val then none else atoiFastLoop rest (n * 10 + (ch - 48).val)

/-- The loop of `strconv.ParseUint(s, 10, 64)` over the bytes of `s`, from the accumulator
`n`; `uint64` arithmetic is taken modulo `2 ^ 64`. -/
def parseUintLoop : Bytes → Nat → Nat × Option NumErrKind
  | [], n => (n, none)
  | c :: rest, n =>
    if 48 ≤ c.val ∧ c.val ≤ 57 then
      if (2 ^ 64 - 1) / 10 + 1 ≤ n then (2 ^ 64 - 1, some .outOfRange)
      else if (n * 10 % 2 ^ 64 + (c.val - 48)) % 2 ^ 64 < n * 10 % 2 ^ 64 then
        (2 ^ 64 - 1, some .outOfRange)
      else parseUintLoop rest ((n * 10 % 2 ^ 64 + (c.val - 48)) % 2 ^ 64)
    else (0, some .invalid)

/-- Go `strconv.ParseUint(s, 10, 64)`. -/
def ParseUint (s : Bytes) : Nat × Option NumErrKind :=
  if s = [] then (0, some .invalid) else parseUintLoop s 0

/-- Go `strconv.ParseInt(s, 10, 0)` with a 64-bit `int`. -/
def ParseInt (s : Bytes) : Int × Option NumErrKind :=
  match s with
  | [] => (0, some .invalid)
  | c :: rest =>
    let neg := decide (c = 45)
    let body := if c = 43 ∨ c = 45 then rest else c :: rest
    match ParseUint body with
    | (_, some .invalid) => (0, some .invalid)
    | (un, _) =>
      if ¬ neg ∧ 2 ^ 63 ≤ un then (2 ^ 63 - 1, some .outOfRange)
      else if neg ∧ 2 ^ 63 < un then (-(2 ^ 63), some .outOfRange)
      else if neg then (-(un : Int), none) else ((un : Int), none)

/-- Go `strconv.Atoi(s)` with a 64-bit `int`: the parsed value and the error. -/
def Atoi (s : Bytes) : Int × Option GoError :=
  if 0 < s.length ∧ s.length < 19 then
    match s with
    | [] => (0, some (numError "Atoi" s .invalid))
    | c :: rest =>
      let body := if c = 45 ∨ c = 43 then rest else c :: rest
      if body.length < 1 then (0, some (numError "Atoi" s .invalid))
      else
        match atoiFastLoop body 0 with
        | none => (0, some (numError "Atoi" s .invalid))
        | some n => if c = 45 then (-(n : Int), none) else ((n : Int), none)
  else
    match ParseInt s with
    | (i64, some kind) => (i64, some (numError "Atoi" s kind))
    | (i64, none) => (i64, none)

/-! ## `redis_deferred.go` -/

/-- The struct `RedisDeferredResult`, the envelope exchanged over the channel. -/
structure RedisDeferredResult where
  Ticket : String
  Error : String
  Value : Bytes
deriving DecidableEq, Repr

/-- A value travelling on a `chan any` of the registry: an `error`, the raw `[]byte` of an
envelope, or a decoded value of type `T`. -/
inductive ChanValue (T : Type)
  | err (e : GoError)
  | raw (b : Bytes)
  | val (v : T)
deriving DecidableEq, Repr

/-- The fields `marshal` and `unmarshal` of `RedisDeferredOptions[T]`. `unmarshal b t`
receives the bytes and the current content of the `*T` it writes to, and returns the new
content together with the error. -/
structure RedisDeferredOptions (T : Type) where
  marshal : T → Bytes × Option GoError
  unmarshal : Bytes → T → T × Option GoError

/-- What the code asks the runtime about the type parameter `T`:
`zeroTypeIsNil` is `reflect.TypeOf(value) == nil` for the zero `value` of `T` (true exactly
for an interface type), `assertBytes b` is the type assertion `result.(T)` on a `[]byte`
(`none` when it panics), `asError v` is the dynamic value of `v` seen through
`case error:` (`none` when it does not implement `error`). -/
structure TypeInfo (T : Type) where
  zeroTypeIsNil : Bool
  assertBytes : Bytes → Option T
  asError : T → Option GoError

/-- The struct `RedisDeferred[T]`: `channels` binds a ticket to the handle of a channel,
`chans` holds every channel made so far, each with the value its receiver has taken
(`none` while the receiver is still blocked in `<-channel`). -/
structure RedisDeferred (T : Type) where
  name : String
  options : RedisDeferredOptions T
  typeInfo : TypeInfo T
  channels : List (String × Nat)
  chans : List (Option (ChanValue T))

/-- Go `NewRedisDeferred` once the options are applied: no channel is registered. -/
def NewRedisDeferred {T : Type} (name : String) (options : RedisDeferredOptions T)
    (typeInfo : TypeInfo T) : RedisDeferred T :=
  { name := name, options := options, typeInfo := typeInfo, channels := [], chans := [] }

/-- Go `RedisDeferred.Resolve`: the envelope handed to `PUBLISH` (none when marshalling
failed) and the returned error; `publish` is the error `conn.Do` returns. -/
def RedisDeferred.Resolve {T : Type} (d : RedisDeferred T) (ticket : String) (value : T)
    (publish : Option GoError) : Option RedisDeferredResult × Option GoError :=
  match d.options.marshal value with
  | (_, some err) => (none, some err)
  | (valueBytes, none) =>
    (some { Ticket := ticket, Error := "", Value := valueBytes }, publish)

/-- Go `RedisDeferred.Reject`: the envelope handed to `PUBLISH` and the returned error;
`err.msg` is `err.Error()`. -/
def RedisDeferred.Reject {T : Type} (_d : RedisDeferred T) (ticket : String) (err : GoError)
    (publish : Option GoError) : Option RedisDeferredResult × Option GoError :=
  (some { Ticket := ticket, Error := err.msg, Value := [] }, publish)

/-- Go `RedisDeferred.Await` up to its suspension point: makes a channel, registers it under
the ticket and returns its handle; the call then blocks in `<-channel`. -/
def RedisDeferred.Await {T : Type} (d : RedisDeferred T) (ticket : String) :
    RedisDeferred T × Nat :=
  ({ d with channels := mapSet d.channels ticket d.chans.length,
            chans := d.chans ++ [none] }, d.chans.length)

/-- How an `Await` call ends: it returns `(value, err)`, or the type assertion
`result.(T)` panics. -/
inductive AwaitOutcome (T : Type)
  | returned (value : T) (err : Option GoError)
  | panicked
deriving DecidableEq, Repr

/-- The type switch that ends `RedisDeferred.Await`, on the value `v` taken from the
channel. -/
def RedisDeferred.awaitSwitch {T : Type} [Inhabited T] (d : RedisDeferred T)
    (v : ChanValue T) : AwaitOutcome T :=
  match v with
  | .err e => .returned default (some e)
  | .raw b =>
    match d.typeInfo.assertBytes b with
    | some x => .returned x none
    | none => .panicked
  | .val x =>
    match d.typeInfo.asError x with
    | some e => .returned default (some e)
    | none => .returned x none

/-- Go `RedisDeferred.Await` from its suspension point on: `none` while nothing has been
received on `channel`; otherwise the ticket is deleted from the registry and the call
ends as `awaitSwitch` says. -/
def RedisDeferred.awaitReturn {T : Type} [Inhabited T] (d : RedisDeferred T)
    (ticket : String) (channel : Nat) : Option (RedisDeferred T × AwaitOutcome T) :=
  match d.chans[channel]? with
  | some (some v) => some ({ d with channels := mapDelete d.channels ticket }, d.awaitSwitch v)
  | _ => none

/-- What the message branch of `poll` decides for a decoded envelope: drop it, or send a
value on a channel. -/
inductive Dispatch (T : Type)
  | dropped
  | send (channel : Nat) (v : ChanValue T)
deriving DecidableEq, Repr

/-- The message branch of `poll` after a successful decode, up to the channel send. -/
def RedisDeferred.pollSelect {T : Type} [Inhabited T] (d : RedisDeferred T)
    (result : RedisDeferredResult) : Dispatch T :=
  match mapGet d.channels result.Ticket with
  | none => .dropped
  | some channel =>
    if result.Error ≠ "" then .send channel (.err (errorsNew result.Error))
    else if d.typeInfo.zeroTypeIsNil then .send channel (.raw result.Value)
    else
      match d.options.unmarshal result.Value default with
      | (_, some err) => .send channel (.err err)
      | (value, none) => .send channel (.val value)

/-- The send `channel <- v` on an unbuffered channel: it completes when the receiver is
blocked in `<-channel`, and the receiver then holds `v`; `none` when the send cannot
complete (the receiver already took a value). -/
def RedisDeferred.chanSend {T : Type} (d : RedisDeferred T) (channel : Nat)
    (v : ChanValue T) : Option (RedisDeferred T) :=
  match d.chans[channel]? with
  | some none => some { d with chans := d.chans.set channel (some v) }
  | _ => none

/-- The message branch of `poll` for a decoded envelope: the registry afterwards, `none`
when the send cannot complete. -/
def RedisDeferred.pollDispatch {T : Type} [Inhabited T] (d : RedisDeferred T)
    (result : RedisDeferredResult) : Option (RedisDeferred T) :=
  match d.pollSelect result with
  | .dropped => some d
  | .send channel v => d.chanSend channel v

/-- What `psc.Receive()` returns. -/
inductive Received
  | error (e : GoError)
  | subscription (count : Int)
  | message (data : Bytes)
  | pong
deriving DecidableEq, Repr

/-- Control state of the subscription task: `connecting` before `Subscribe`, `subscribed`
inside the receive loop, `sending channel` while it is blocked in a send `channel <- v`
that no receiver takes, `faulted` after the retried function returned an error, `stopped`
after `retry.Do` returned, `panicked` after the goroutine panicked. -/
inductive Phase
  | connecting
  | subscribed
  | sending (channel : Nat)
  | faulted
  | stopped
  | panicked
deriving DecidableEq, Repr

/-- The subscription task: its control state and how many times the retried function has
failed so far. -/
structure PollState where
  phase : Phase
  failures : Nat
deriving DecidableEq, Repr

/-- What moves the task and the registry it reads: the outcome of `psc.Subscribe`, the
value of `psc.Receive()`, the end of a wait of `ms` milliseconds, `retry.Do` giving up, a
caller entering `Await(ticket)`, and the `Await` call whose channel is the one registered
under `ticket` going on after its receive (it deletes the ticket, returns, and its
deferred `close(channel)` runs). -/
inductive PollEvent
  | subscribe (err : Option GoError)
  | receive (n : Received)
  | waited (ms : Nat)
  | giveUp
  | await (ticket : String)
  | awaitReturn (ticket : String)
deriving DecidableEq, Repr

/-- Go `retry.Attempts(0)` as passed by `poll`. -/
def pollAttempts : Nat := 0

/-- Go `retry.Delay(1*time.Second)` with `retry.FixedDelay`, in milliseconds. -/
def pollDelay : Nat := 1000

/-- The rule of `retry.Do` (retry-go v4): after `failures` failed attempts another one
follows when `attempts` is 0 (retry until success) or is not used up. The errors `poll`
returns are never wrapped by `retry.Unrecoverable`, so all of them are retried. -/
def retryAgain (attempts failures : Nat) : Bool :=
  attempts == 0 || decide (failures < attempts)

/-- One step of the task started by `poll`, together with the `Await` calls that share its
registry. `jsonUnmarshal` is `json.Unmarshal` into a `RedisDeferredResult` (`none` when it
fails). `none` means the event cannot take place in that state.

A message whose send completes leaves the task subscribed. When the receiver of the
looked-up channel has already taken a value, the send `channel <- v` blocks: the task is
then `sending channel` and takes no further event of its own. The `Await` that owns the
channel goes on, deletes its ticket and closes the channel on return, and a send blocked
on a channel that is closed panics: the task is `panicked`, and so is the process. -/
def pollStep {T : Type} [Inhabited T] (jsonUnmarshal : Bytes → Option RedisDeferredResult)
    (s : RedisDeferred T × PollState) (ev : PollEvent) :
    Option (RedisDeferred T × PollState) :=
  if s.2.phase = .panicked then none
  else
    match ev with
    | .await ticket => some ((s.1.Await ticket).1, s.2)
    | .awaitReturn ticket =>
      match mapGet s.1.channels ticket with
      | none => none
      | some channel =>
        match s.1.awaitReturn ticket channel with
        | none => none
        | some r =>
          if s.2.phase = .sending channel then some (r.1, { s.2 with phase := .panicked })
          else some (r.1, s.2)
    | .subscribe err =>
      match s.2.phase with
      | .connecting =>
        match err with
        | none => some (s.1, { s.2 with phase := .subscribed })
        | some _ => some (s.1, { phase := .faulted, failures := s.2.failures + 1 })
      | _ => none
    | .receive n =>
      match s.2.phase with
      | .subscribed =>
        match n with
        | .error _ => some (s.1, { phase := .faulted, failures := s.2.failures + 1 })
        | .subscription count =>
          if count = 0 then some (s.1, { phase := .faulted, failures := s.2.failures + 1 })
          else some s
        | .message data =>
          match jsonUnmarshal data with
          | none => some s
          | some result =>
            match s.1.pollSelect result with
            | .dropped => some s
            | .send channel v =>
              match s.1.chanSend channel v with
              | some d => some (d, s.2)
              | none => some (s.1, { s.2 with phase := .sending channel })
        | .pong => some s
      | _ => none
    | .waited ms =>
      match s.2.phase with
      | .faulted =>
        if retryAgain pollAttempts s.2.failures ∧ ms = pollDelay then
          some (s.1, { s.2 with phase := .connecting })
        else none
      | _ => none
    | .giveUp =>
      match s.2.phase with
      | .faulted =>
        if retryAgain pollAttempts s.2.failures then none
        else some (s.1, { s.2 with phase := .stopped })
      | _ => none

/-- A run of the task over a list of events. -/
def pollRun {T : Type} [Inhabited T] (jsonUnmarshal : Bytes → Option RedisDeferredResult)
    (s : RedisDeferred T × PollState) : List PollEvent → Option (RedisDeferred T × PollState)
  | [] => some s
  | ev :: rest =>
    match pollStep jsonUnmarshal s ev with
    | some s1 => pollRun jsonUnmarshal s1 rest
    | none => none

/-! ## The codec of `TestRedisDeferred` -/

/-- The marshal function of the test: `[]byte(fmt.Sprintf("%d", i))`, no error. -/
def testMarshal (i : Int) : Bytes × Option GoError := (sprintfD i, none)

/-- The unmarshal function of the test: `*t, err = strconv.Atoi(string(b))`. -/
def testUnmarshal (b : Bytes) (_t : Int) : Int × Option GoError := Atoi b

/-- The options of the test. -/
def testOptions : RedisDeferredOptions Int :=
  { marshal := testMarshal, unmarshal := testUnmarshal }

/-- The type parameter `int`: a concrete type, neither a `[]byte` nor an `error`. -/
def intTypeInfo : TypeInfo Int :=
  { zeroTypeIsNil := false, assertBytes := fun _ => none, asError := fun _ => none }

/-! ## Theorems -/

theorem mapGet_mapDelete_self {α : Type} (m : List (String × α)) (key : String) :
    mapGet (mapDelete m key) key = none := by
  induction m with
  | nil => rfl
  | cons p rest ih =>
    obtain ⟨k, v⟩ := p
    by_cases h : k = key
    · simp [mapDelete, h, ih]
    · simp [mapDelete, mapGet, h, ih]

theorem mapGet_mapDelete_ne {α : Type} (m : List (String × α)) (key other : String)
    (h : other ≠ key) : mapGet (mapDelete m key) other = mapGet m other := by
  induction m with
  | nil => rfl
  | cons p rest ih =>
    obtain ⟨k, v⟩ := p
    by_cases hk : k = key
    · subst hk
      have : ¬ k = other := fun e => h e.symm
      simp [mapDelete, mapGet, this, ih]
    · by_cases ho : k = other
      · subst ho
        simp [mapDelete, mapGet, h]
      · simp [mapDelete, mapGet, hk, ho, ih]

theorem mapGet_mapSet_self {α : Type} (m : List (String × α)) (key : String) (v : α) :
    mapGet (mapSet m key v) key = some v := by
  simp [mapSet, mapGet]

theorem mapGet_mapSet_ne {α : Type} (m : List (String × α)) (key other : String) (v : α)
    (h : other ≠ key) : mapGet (mapSet m key v) other = mapGet m other := by
  have : ¬ key = other := fun e => h e.symm
  simp [mapSet, mapGet, this, mapGet_mapDelete_ne m key other h]


theorem heap_set_self {T E : Type} (heap : List (Promise T E)) (h : Nat) (p0 p : Promise T E)
    (hin : heap[h]? = some p0) : (heap.set h p)[h]? = some p := by
  have hlt : h < heap.length := by
    by_contra hge
    rw [List.getElem?_eq_none (Nat.le_of_not_lt hge)] at hin
    exact absurd hin (by simp)
  simp [hlt]

theorem heap_set_ne {T E : Type} (heap : List (Promise T E)) (h q : Nat) (p : Promise T E)
    (hne : q ≠ h) : (heap.set h p)[q]? = heap[q]? := by
  have : ¬ h = q := fun e => hne e.symm
  simp [List.getElem?_set, this]

theorem promise_of_heap {T E : Type} (d : LocalDeferred T E) (h : Nat) (p : Promise T E)
    (hin : d.heap[h]? = some p) : d.promise h = p := by
  simp [LocalDeferred.promise, hin]

theorem futureGet_of_heap {T E : Type} [Inhabited T] (info : ValueInfo T E)
    (d : LocalDeferred T E) (h : Nat) (p : Promise T E) (hin : d.heap[h]? = some p) :
    d.futureGet info h = p.map (Future.setResult info) := by
  unfold LocalDeferred.futureGet
  rw [promise_of_heap d h p hin]
  cases p <;> rfl

theorem resolve_registered {T E : Type} (d : LocalDeferred T E) (t : String) (v : T)
    (p : Nat) (hreg : mapGet d.promisesMap t = some p) (hpend : d.heap[p]? = some none) :
    d.Resolve t v = ((⟨mapDelete d.promisesMap t,
      d.heap.set p (some (.val v))⟩ : LocalDeferred T E), none) := by
  simp [LocalDeferred.Resolve, hreg, promise_of_heap d p none hpend, Promise.Success,
    Future.complete]

theorem reject_registered {T E : Type} [Inhabited T] (d : LocalDeferred T E) (t : String)
    (e : Option E) (p : Nat) (hreg : mapGet d.promisesMap t = some p)
    (hpend : d.heap[p]? = some none) :
    d.Reject t e = ((⟨mapDelete d.promisesMap t,
      d.heap.set p (Future.complete none default e)⟩ : LocalDeferred T E), none) := by
  simp [LocalDeferred.Reject, hreg, promise_of_heap d p none hpend, Promise.Failure]

theorem await_new_pending {T E : Type} (d : LocalDeferred T E) (t : String) :
    (d.Await t).1.heap[(d.Await t).2]? = some none := by
  simp [LocalDeferred.Await]

theorem await_old {T E : Type} (d : LocalDeferred T E) (t : String) (q : Nat)
    (hq : q < d.heap.length) : (d.Await t).1.heap[q]? = d.heap[q]? := by
  simp [LocalDeferred.Await, List.getElem?_append_left hq]

/-- Resolve on a registered ticket, for a value that is delivered as data. When an
`Await(t)` is registered on a pending
promise and `v` is delivered as data (it is not the nil value of an interface type and
does not implement `error`), `Resolve(t, v)` returns no error, the blocked `Await(t)`
returns `(v, nil)`, no other promise changes, and `t` is unbound while the other tickets
stay bound as before. -/
theorem local_resolve_delivers {T E : Type} [Inhabited T] (info : ValueInfo T E)
    (d : LocalDeferred T E) (t : String) (v : T) (p : Nat)
    (hreg : mapGet d.promisesMap t = some p) (hpend : d.heap[p]? = some none)
    (hnil : info.isNil v = false) (herr : info.asError v = none) :
    (d.Resolve t v).2 = none ∧
    (d.Resolve t v).1.futureGet info p = some (.returned v none) ∧
    (∀ q, q ≠ p → (d.Resolve t v).1.heap[q]? = d.heap[q]?) ∧
    mapGet (d.Resolve t v).1.promisesMap t = none ∧
    (∀ u, u ≠ t → mapGet (d.Resolve t v).1.promisesMap u = mapGet d.promisesMap u) := by
  rw [resolve_registered d t v p hreg hpend]
  refine ⟨rfl, ?_, ?_, mapGet_mapDelete_self _ _, ?_⟩
  · rw [futureGet_of_heap info _ p (some (.val v)) (heap_set_self _ _ _ _ hpend)]
    simp [Future.setResult, hnil, herr]
  · intro q hq
    exact heap_set_ne _ _ _ _ hq
  · intro u hu
    exact mapGet_mapDelete_ne _ _ _ hu

theorem local_resolve_delivers_witness :
    ((NewLocalDeferred Nat String).Await "a").1.heap[0]? = some none ∧
    (((NewLocalDeferred Nat String).Await "a").1.Resolve "a" 7).1.futureGet
      (plainValueInfo Nat String) 0 = some (.returned 7 none) := by
  have h := local_resolve_delivers (plainValueInfo Nat String)
    ((NewLocalDeferred Nat String).Await "a").1 "a" 7 0 (by decide) (by decide) rfl rfl
  exact ⟨by decide, h.2.1⟩

/-- C1 fails on the code for a value that implements `error`, and for the nil value of an
interface type. On `NewLocalDeferred[error]()` with `Await("a")` registered on a pending
promise, `Resolve("a", errors.New("x"))` returns no error and unbinds "a", but the blocked
`Await("a")` returns `(nil, x)`: the value comes back as the error, not as `(x, nil)`.
With `Resolve("a", nil)` instead, the `Await` panics in the type assertion of the
library. -/
theorem local_resolve_error_value :
    mapGet ((NewLocalDeferred (Option GoError) GoError).Await "a").1.promisesMap "a"
      = some 0 ∧
    ((NewLocalDeferred (Option GoError) GoError).Await "a").1.heap[0]? = some none ∧
    (((NewLocalDeferred (Option GoError) GoError).Await "a").1.Resolve "a"
      (some (errorsNew "x"))).2 = none ∧
    (((NewLocalDeferred (Option GoError) GoError).Await "a").1.Resolve "a"
      (some (errorsNew "x"))).1.futureGet errorValueInfo 0
      = some (.returned none (some (errorsNew "x"))) ∧
    (((NewLocalDeferred (Option GoError) GoError).Await "a").1.Resolve "a"
      (some (errorsNew "x"))).1.futureGet errorValueInfo 0
      ≠ some (.returned (some (errorsNew "x")) none) ∧
    (((NewLocalDeferred (Option GoError) GoError).Await "a").1.Resolve "a"
      none).1.futureGet errorValueInfo 0 = some .panicked := by
  decide

/-- C3. Local mode: for a ticket that is bound to no promise, `Resolve(t, v)` and
`Reject(t, e)` each return the non-nil error "ticket's promise not found" and return the
state (registry and every promise) exactly as it was. -/
theorem local_unknown_ticket_not_found {T E : Type} [Inhabited T] (d : LocalDeferred T E)
    (t : String) (v : T) (e : Option E) (hfree : mapGet d.promisesMap t = none) :
    d.Resolve t v = (d, some (errorsNew "ticket's promise not found")) ∧
    d.Reject t e = (d, some (errorsNew "ticket's promise not found")) := by
  simp [LocalDeferred.Resolve, LocalDeferred.Reject, hfree]

theorem local_unknown_ticket_not_found_witness :
    mapGet ((NewLocalDeferred Nat String).Await "a").1.promisesMap "b" = none ∧
    (((NewLocalDeferred Nat String).Await "a").1.Resolve "b" 3).2
      = some (errorsNew "ticket's promise not found") := by
  have h := local_unknown_ticket_not_found ((NewLocalDeferred Nat String).Await "a").1
    "b" 3 (some "boom") (by decide)
  exact ⟨by decide, by rw [h.1]⟩

/-- C4. Local mode: when an `Await(t)` is registered on a pending promise, `Reject(t, e)`
returns no error, unbinds `t`, and makes the blocked `Await(t)` return the zero value of
`T` together with exactly the error `e`; no other promise and no other binding changes.
This holds for every non-nil error `e` and every `T`; for the nil error it holds when the
zero value of `T` is delivered as data (it is not the nil value of an interface type and
does not implement `error`), which is what `hzero` says. -/
theorem local_reject_registered {T E : Type} [Inhabited T] (info : ValueInfo T E)
    (d : LocalDeferred T E) (t : String) (e : Option E) (p : Nat)
    (hreg : mapGet d.promisesMap t = some p) (hpend : d.heap[p]? = some none)
    (hzero : e = none →
      info.isNil (default : T) = false ∧ info.asError (default : T) = none) :
    (d.Reject t e).2 = none ∧
    (d.Reject t e).1.futureGet info p = some (.returned default e) ∧
    (∀ q, q ≠ p → (d.Reject t e).1.heap[q]? = d.heap[q]?) ∧
    mapGet (d.Reject t e).1.promisesMap t = none ∧
    (∀ u, u ≠ t → mapGet (d.Reject t e).1.promisesMap u = mapGet d.promisesMap u) := by
  rw [reject_registered d t e p hreg hpend]
  refine ⟨rfl, ?_, ?_, mapGet_mapDelete_self _ _, ?_⟩
  · rw [futureGet_of_heap info _ p _ (heap_set_self _ _ _ _ hpend)]
    cases e with
    | some x => rfl
    | none =>
      obtain ⟨h1, h2⟩ := hzero rfl
      simp [Future.complete, Future.setResult, h1, h2]
  · intro q hq
    exact heap_set_ne _ _ _ _ hq
  · intro u hu
    exact mapGet_mapDelete_ne _ _ _ hu

theorem local_reject_registered_witness :
    ((NewLocalDeferred (Option GoError) GoError).Await "a").1.heap[0]? = some none ∧
    (((NewLocalDeferred (Option GoError) GoError).Await "a").1.Reject "a"
      (some (errorsNew "boom"))).1.futureGet errorValueInfo 0
      = some (.returned none (some (errorsNew "boom"))) := by
  have h := local_reject_registered errorValueInfo
    ((NewLocalDeferred (Option GoError) GoError).Await "a").1 "a"
    (some (errorsNew "boom")) 0 (by decide) (by decide) (by intro h; cases h)
  exact ⟨by decide, h.2.1⟩

/-- C2, as the spec states it, fails: on the fresh registry `Resolve("t", 5)` finds no
promise and returns the not-found error, and the `Await("t")` issued afterwards blocks on
a new promise that is still pending, so it does not return `(5, nil)`. -/
theorem local_resolve_then_await_counterexample :
    mapGet (NewLocalDeferred Nat String).promisesMap "t" = none ∧
    ((NewLocalDeferred Nat String).Resolve "t" 5).2
      = some (errorsNew "ticket's promise not found") ∧
    ((((NewLocalDeferred Nat String).Resolve "t" 5).1.Await "t").1.futureGet
      (plainValueInfo Nat String)
      ((((NewLocalDeferred Nat String).Resolve "t" 5).1.Await "t").2)) = none ∧
    ((((NewLocalDeferred Nat String).Resolve "t" 5).1.Await "t").1.futureGet
      (plainValueInfo Nat String)
      ((((NewLocalDeferred Nat String).Resolve "t" 5).1.Await "t").2))
      ≠ some (.returned 5 none) := by
  decide

/-- C2, amended. From a registry with no promise bound to `t`: `Await(t)` issued before
`Resolve(t, v)` returns `(v, nil)` and that `Resolve` returns no error, for a value `v`
that is delivered as data (not the nil value of an interface type, not an `error`);
`Resolve(t, v)` issued first returns the not-found error and changes nothing, and the
`Await(t)` issued after it blocks on a fresh pending promise, so the value `v` is not
delivered to it. -/
theorem local_await_resolve_order {T E : Type} [Inhabited T] (info : ValueInfo T E)
    (d : LocalDeferred T E) (t : String) (v : T) (hfree : mapGet d.promisesMap t = none)
    (hnil : info.isNil v = false) (herr : info.asError v = none) :
    ((d.Await t).1.Resolve t v).2 = none ∧
    ((d.Await t).1.Resolve t v).1.futureGet info (d.Await t).2
      = some (.returned v none) ∧
    d.Resolve t v = (d, some (errorsNew "ticket's promise not found")) ∧
    ((d.Resolve t v).1.Await t).1.heap[((d.Resolve t v).1.Await t).2]? = some none ∧
    ((d.Resolve t v).1.Await t).1.futureGet info ((d.Resolve t v).1.Await t).2 = none := by
  have hres : d.Resolve t v = (d, some (errorsNew "ticket's promise not found")) := by
    simp [LocalDeferred.Resolve, hfree]
  have hget : mapGet (d.Await t).1.promisesMap t = some (d.Await t).2 := by
    simp [LocalDeferred.Await, mapGet_mapSet_self]
  have hA := local_resolve_delivers info (d.Await t).1 t v (d.Await t).2 hget
    (await_new_pending d t) hnil herr
  refine ⟨hA.1, hA.2.1, hres, ?_, ?_⟩
  · rw [hres]
    exact await_new_pending d t
  · rw [hres, futureGet_of_heap info _ _ none (await_new_pending d t)]
    rfl

theorem local_await_resolve_order_witness :
    mapGet (NewLocalDeferred Nat String).promisesMap "t" = none ∧
    (((NewLocalDeferred Nat String).Await "t").1.Resolve "t" 5).1.futureGet
      (plainValueInfo Nat String) ((NewLocalDeferred Nat String).Await "t").2
      = some (.returned 5 none) := by
  have h := local_await_resolve_order (plainValueInfo Nat String)
    (NewLocalDeferred Nat String) "t" 5 (by decide) rfl rfl
  exact ⟨by decide, h.2.1⟩

theorem mem_mapDelete {α : Type} (m : List (String × α)) (key : String) (e : String × α)
    (h : e ∈ mapDelete m key) : e ∈ m ∧ e.1 ≠ key := by
  induction m with
  | nil => simp [mapDelete] at h
  | cons p rest ih =>
    obtain ⟨k, v⟩ := p
    by_cases hk : k = key
    · simp only [mapDelete, hk, if_true] at h
      exact ⟨List.mem_cons_of_mem _ (ih h).1, (ih h).2⟩
    · simp only [mapDelete, hk, if_false, List.mem_cons] at h
      rcases h with h | h
      · subst h
        exact ⟨List.mem_cons_self _ _, hk⟩
      · exact ⟨List.mem_cons_of_mem _ (ih h).1, (ih h).2⟩

theorem heap_lt_of_some {T E : Type} (heap : List (Promise T E)) (h : Nat) (p : Promise T E)
    (hin : heap[h]? = some p) : h < heap.length := by
  by_contra hge
  rw [List.getElem?_eq_none (Nat.le_of_not_lt hge)] at hin
  exact absurd hin (by simp)

theorem outstanding_congr {T E : Type} (d : LocalDeferred T E) (hs hs' : List (String × Nat))
    (hiff : ∀ x, x ∈ hs ↔ x ∈ hs') (h : d.Outstanding hs) : d.Outstanding hs' := by
  obtain ⟨h1, h2, h3⟩ := h
  refine ⟨?_, ?_, ?_⟩
  · intro t a ha
    exact h1 t a ((hiff _).2 ha)
  · intro t u a ha hu
    exact h2 t u a ((hiff _).2 ha) ((hiff _).2 hu)
  · intro e he
    obtain ⟨a, ha⟩ := h3 e he
    exact ⟨a, (hiff _).1 ha⟩

theorem outstanding_await {T E : Type} (d : LocalDeferred T E) (hs : List (String × Nat))
    (t : String) (h : d.Outstanding hs) (hfresh : ∀ a, (t, a) ∉ hs) :
    (d.Await t).1.Outstanding ((t, (d.Await t).2) :: hs) := by
  obtain ⟨h1, h2, h3⟩ := h
  have hA2 : (d.Await t).2 = d.heap.length := rfl
  have hmap : (d.Await t).1.promisesMap = mapSet d.promisesMap t d.heap.length := rfl
  refine ⟨?_, ?_, ?_⟩
  · intro u a hua
    rcases List.mem_cons.1 hua with heq | hmem
    · obtain ⟨rfl, rfl⟩ := Prod.mk.inj heq
      refine ⟨?_, await_new_pending d u⟩
      rw [hmap, hA2]
      exact mapGet_mapSet_self _ _ _
    · obtain ⟨g1, g2⟩ := h1 u a hmem
      have hne : u ≠ t := by
        rintro rfl
        exact hfresh a hmem
      refine ⟨?_, ?_⟩
      · rw [hmap, mapGet_mapSet_ne _ _ _ _ hne]
        exact g1
      · rw [await_old d t a (heap_lt_of_some _ _ _ g2)]
        exact g2
  · intro u w a hu hw
    rcases List.mem_cons.1 hu with heq | hmem
    · obtain ⟨rfl, rfl⟩ := Prod.mk.inj heq
      rcases List.mem_cons.1 hw with heq' | hmem'
      · exact (Prod.mk.inj heq').1.symm
      · have := heap_lt_of_some _ _ _ (h1 w _ hmem').2
        rw [hA2] at this
        exact absurd this (Nat.lt_irrefl _)
    · rcases List.mem_cons.1 hw with heq' | hmem'
      · obtain ⟨rfl, rfl⟩ := Prod.mk.inj heq'
        have := heap_lt_of_some _ _ _ (h1 u _ hmem).2
        rw [hA2] at this
        exact absurd this (Nat.lt_irrefl _)
      · exact h2 u w a hmem hmem'
  · intro e he
    rw [hmap] at he
    rcases List.mem_cons.1 he with heq | hmem
    · subst heq
      exact ⟨d.heap.length, List.mem_cons_self _ _⟩
    · obtain ⟨a, ha⟩ := h3 e (mem_mapDelete _ _ _ hmem).1
      exact ⟨a, List.mem_cons_of_mem _ ha⟩

theorem awaitAll_outstanding {T E : Type} (aw : List String) :
    ∀ (d : LocalDeferred T E) (hs : List (String × Nat)), d.Outstanding hs → aw.Nodup →
      (∀ t, t ∈ aw → ∀ a, (t, a) ∉ hs) →
      (d.awaitAll aw).1.Outstanding ((d.awaitAll aw).2 ++ hs) ∧
      (d.awaitAll aw).2.map Prod.fst = aw := by
  induction aw with
  | nil =>
    intro d hs h _ _
    exact ⟨by simpa [LocalDeferred.awaitAll] using h, rfl⟩
  | cons t ts ih =>
    intro d hs h hnd hfresh
    have hstep := outstanding_await d hs t h (hfresh t (List.mem_cons_self _ _))
    have hnd' := List.nodup_cons.1 hnd
    have hfresh' : ∀ u, u ∈ ts → ∀ a, (u, a) ∉ (t, (d.Await t).2) :: hs := by
      intro u hu a hmem
      rcases List.mem_cons.1 hmem with heq | hmem
      · have : u = t := (Prod.mk.inj heq).1
        exact hnd'.1 (this ▸ hu)
      · exact hfresh u (List.mem_cons_of_mem _ hu) a hmem
    obtain ⟨i1, i2⟩ := ih (d.Await t).1 _ hstep hnd'.2 hfresh'
    refine ⟨?_, ?_⟩
    · refine outstanding_congr _ _ _ ?_ i1
      intro x
      simp only [LocalDeferred.awaitAll, List.mem_append, List.mem_cons]
      tauto
    · simp only [LocalDeferred.awaitAll, List.map_cons, i2]

theorem resolve_keeps_settled {T E : Type} (d : LocalDeferred T E) (t : String) (v : T)
    (q : Nat) (r : Completion T E) (h : d.heap[q]? = some (some r)) :
    (d.Resolve t v).1.heap[q]? = some (some r) := by
  unfold LocalDeferred.Resolve
  cases hget : mapGet d.promisesMap t with
  | none => exact h
  | some p =>
    by_cases hp : q = p
    · subst hp
      show (d.heap.set q (Promise.Success (d.promise q) v))[q]? = some (some r)
      rw [heap_set_self _ _ _ _ h, promise_of_heap d q _ h]
      rfl
    · show (d.heap.set p (Promise.Success (d.promise p) v))[q]? = some (some r)
      rw [heap_set_ne _ _ _ _ hp]
      exact h

theorem resolveAll_keeps_settled {T E : Type} (rs : List (String × T)) :
    ∀ (d : LocalDeferred T E) (q : Nat) (r : Completion T E), d.heap[q]? = some (some r) →
      (d.resolveAll rs).1.heap[q]? = some (some r) := by
  induction rs with
  | nil =>
    intro d q r h
    exact h
  | cons x rest ih =>
    intro d q r h
    obtain ⟨t, v⟩ := x
    exact ih _ q r (resolve_keeps_settled d t v q r h)

theorem outstanding_resolve {T E : Type} (d : LocalDeferred T E) (hs : List (String × Nat))
    (t : String) (v : T) (a : Nat) (h : d.Outstanding hs) (hta : (t, a) ∈ hs) :
    (d.Resolve t v).2 = none ∧
    (d.Resolve t v).1.heap[a]? = some (some (.val v)) ∧
    (d.Resolve t v).1.Outstanding (hs.filter (fun e => decide (e.1 ≠ t))) := by
  obtain ⟨h1, h2, h3⟩ := h
  obtain ⟨g1, g2⟩ := h1 t a hta
  rw [resolve_registered d t v a g1 g2]
  refine ⟨rfl, heap_set_self _ _ _ _ g2, ?_, ?_, ?_⟩
  · intro u b hub
    have hmem := List.mem_filter.1 hub
    have hne : u ≠ t := by simpa using hmem.2
    obtain ⟨k1, k2⟩ := h1 u b hmem.1
    refine ⟨?_, ?_⟩
    · show mapGet (mapDelete d.promisesMap t) u = some b
      rw [mapGet_mapDelete_ne _ _ _ hne]
      exact k1
    · have hba : b ≠ a := by
        rintro rfl
        exact hne (h2 u t b hmem.1 hta)
      show (d.heap.set a (some (.val v)))[b]? = some none
      rw [heap_set_ne _ _ _ _ hba]
      exact k2
  · intro u w b hu hw
    exact h2 u w b (List.mem_filter.1 hu).1 (List.mem_filter.1 hw).1
  · intro e he
    have hm := mem_mapDelete d.promisesMap t e he
    obtain ⟨b, hb⟩ := h3 e hm.1
    exact ⟨b, List.mem_filter.2 ⟨hb, by simpa using hm.2⟩⟩

theorem resolveAll_outstanding {T E : Type} (rs : List (String × T)) :
    ∀ (d : LocalDeferred T E) (hs : List (String × Nat)), d.Outstanding hs →
      (rs.map Prod.fst).Nodup → (∀ t v, (t, v) ∈ rs → ∃ a, (t, a) ∈ hs) →
      (d.resolveAll rs).2.length = rs.length ∧
      (∀ e, e ∈ (d.resolveAll rs).2 → e = none) ∧
      (∀ t v a, (t, v) ∈ rs → (t, a) ∈ hs →
        (d.resolveAll rs).1.heap[a]? = some (some (.val v))) ∧
      (d.resolveAll rs).1.Outstanding
        (hs.filter (fun e => decide (e.1 ∉ rs.map Prod.fst))) := by
  induction rs with
  | nil =>
    intro d hs h _ _
    refine ⟨rfl, ?_, ?_, ?_⟩
    · intro e he
      simp [LocalDeferred.resolveAll] at he
    · intro t v a hmem
      simp at hmem
    · refine outstanding_congr _ _ _ ?_ h
      intro x
      simp [LocalDeferred.resolveAll]
  | cons x rest ih =>
    intro d hs h hnd hcov
    obtain ⟨t, v⟩ := x
    have hnd' := List.nodup_cons.1 (by simpa using hnd : (t :: rest.map Prod.fst).Nodup)
    obtain ⟨a, hta⟩ := hcov t v (List.mem_cons_self _ _)
    obtain ⟨s1, s2, s3⟩ := outstanding_resolve d hs t v a h hta
    have hcov' : ∀ u w, (u, w) ∈ rest →
        ∃ b, (u, b) ∈ hs.filter (fun e => decide (e.1 ≠ t)) := by
      intro u w huw
      obtain ⟨b, hb⟩ := hcov u w (List.mem_cons_of_mem _ huw)
      have hne : u ≠ t := by
        rintro rfl
        exact hnd'.1 (List.mem_map.2 ⟨(u, w), huw, rfl⟩)
      exact ⟨b, List.mem_filter.2 ⟨hb, by simpa using hne⟩⟩
    obtain ⟨i1, i2, i3, i4⟩ := ih (d.Resolve t v).1 _ s3 hnd'.2 hcov'
    refine ⟨?_, ?_, ?_, ?_⟩
    · simp only [LocalDeferred.resolveAll, List.length_cons, i1]
    · intro e he
      simp only [LocalDeferred.resolveAll, List.mem_cons] at he
      rcases he with he | he
      · rw [he, s1]
      · exact i2 e he
    · intro u w b huw hub
      show ((d.Resolve t v).1.resolveAll rest).1.heap[b]? = some (some (.val w))
      rcases List.mem_cons.1 huw with heq | hmem
      · obtain ⟨rfl, rfl⟩ := Prod.mk.inj heq
        have hab : b = a := by
          have e1 := (h.1 u b hub).1
          have e2 := (h.1 u a hta).1
          rw [e1] at e2
          exact Option.some.inj e2
        subst hab
        exact resolveAll_keeps_settled rest _ b _ s2
      · have hne : u ≠ t := by
          rintro rfl
          exact hnd'.1 (List.mem_map.2 ⟨(u, w), hmem, rfl⟩)
        exact i3 u w b hmem (List.mem_filter.2 ⟨hub, by simpa using hne⟩)
    · refine outstanding_congr _ _ _ ?_ i4
      intro y
      simp only [List.mem_filter, List.map_cons, List.mem_cons, decide_eq_true_eq, ne_eq,
        not_or]
      tauto

/-- No cross-delivery of completions. Take pairwise distinct
tickets with their values (`pairs`), issue one `Await` per ticket on a fresh registry in
any order (`aw`, a permutation of the tickets), then one `Resolve` per pair in any order
(`rs`, a permutation of the pairs). Every `Await` call got a handle, every `Resolve`
returns no error, the promise of each ticket is completed with the value paired with that
ticket and with no other, and the registry ends empty. When that value is delivered as
data (not the nil value of an interface type, not an `error`), the `Await` of the ticket
returns it with a nil error. -/
theorem local_no_cross_delivery {T E : Type} [Inhabited T] (info : ValueInfo T E)
    (pairs : List (String × T)) (aw : List String)
    (rs : List (String × T)) (hnd : (pairs.map Prod.fst).Nodup)
    (haw : aw.Perm (pairs.map Prod.fst)) (hrs : rs.Perm pairs) :
    ((NewLocalDeferred T E).awaitAll aw).2.map Prod.fst = aw ∧
    (((NewLocalDeferred T E).awaitAll aw).1.resolveAll rs).2.length = pairs.length ∧
    (∀ e, e ∈ (((NewLocalDeferred T E).awaitAll aw).1.resolveAll rs).2 → e = none) ∧
    (∀ t v a, (t, v) ∈ pairs → (t, a) ∈ ((NewLocalDeferred T E).awaitAll aw).2 →
      (((NewLocalDeferred T E).awaitAll aw).1.resolveAll rs).1.heap[a]?
        = some (some (.val v)) ∧
      (info.isNil v = false → info.asError v = none →
        (((NewLocalDeferred T E).awaitAll aw).1.resolveAll rs).1.futureGet info a
          = some (.returned v none))) ∧
    (∀ t v, (t, v) ∈ pairs → ∃ a, (t, a) ∈ ((NewLocalDeferred T E).awaitAll aw).2) ∧
    (((NewLocalDeferred T E).awaitAll aw).1.resolveAll rs).1.promisesMap = [] := by
  have h0 : (NewLocalDeferred T E).Outstanding [] := by
    refine ⟨?_, ?_, ?_⟩
    · intro t a h
      simp at h
    · intro t u a h
      simp at h
    · intro e he
      simp [NewLocalDeferred] at he
  have hawnd : aw.Nodup := (List.Perm.nodup_iff haw).2 hnd
  obtain ⟨a1, a2⟩ := awaitAll_outstanding aw (NewLocalDeferred T E) [] h0 hawnd
    (by intro t _ a h; simp at h)
  rw [List.append_nil] at a1
  have hrsnd : (rs.map Prod.fst).Nodup := (List.Perm.nodup_iff (hrs.map Prod.fst)).2 hnd
  have hhandle : ∀ t, t ∈ aw → ∃ a, (t, a) ∈ ((NewLocalDeferred T E).awaitAll aw).2 := by
    intro t ht
    rw [← a2] at ht
    obtain ⟨x, hx, rfl⟩ := List.mem_map.1 ht
    exact ⟨x.2, hx⟩
  have hpairs : ∀ t v, (t, v) ∈ pairs →
      ∃ a, (t, a) ∈ ((NewLocalDeferred T E).awaitAll aw).2 := by
    intro t v htv
    exact hhandle t (haw.symm.subset (List.mem_map.2 ⟨(t, v), htv, rfl⟩))
  have hcov : ∀ t v, (t, v) ∈ rs →
      ∃ a, (t, a) ∈ ((NewLocalDeferred T E).awaitAll aw).2 := by
    intro t v htv
    exact hpairs t v (hrs.subset htv)
  obtain ⟨r1, r2, r3, r4⟩ := resolveAll_outstanding rs _ _ a1 hrsnd hcov
  refine ⟨a2, ?_, r2, ?_, hpairs, ?_⟩
  · rw [r1]
    exact hrs.length_eq
  · intro t v a htv hta
    have hcell := r3 t v a (hrs.symm.subset htv) hta
    refine ⟨hcell, ?_⟩
    intro hnil herr
    rw [futureGet_of_heap info _ a _ hcell]
    simp [Future.setResult, hnil, herr]
  · apply List.eq_nil_iff_forall_not_mem.2
    intro e he
    obtain ⟨b, hb⟩ := r4.2.2 e he
    have hm := List.mem_filter.1 hb
    have hin : e.1 ∈ rs.map Prod.fst := by
      have : e.1 ∈ aw := by
        rw [← a2]
        exact List.mem_map.2 ⟨(e.1, b), hm.1, rfl⟩
      exact (hrs.map Prod.fst).symm.subset (haw.subset this)
    have hout : e.1 ∉ rs.map Prod.fst := by simpa using hm.2
    exact hout hin

theorem local_no_cross_delivery_witness :
    (((NewLocalDeferred Nat String).awaitAll ["b", "a", "c"]).1.resolveAll
      [("c", 30), ("a", 10), ("b", 20)]).1.promisesMap = [] ∧
    (((NewLocalDeferred Nat String).awaitAll ["b", "a", "c"]).1.resolveAll
      [("c", 30), ("a", 10), ("b", 20)]).1.futureGet (plainValueInfo Nat String) 0
      = some (.returned 20 none) := by
  have h := local_no_cross_delivery (plainValueInfo Nat String)
    [("a", 10), ("b", 20), ("c", 30)]
    ["b", "a", "c"] [("c", 30), ("a", 10), ("b", 20)] (by decide) (by decide) (by decide)
  exact ⟨h.2.2.2.2.2, (h.2.2.2.1 "b" 20 0 (by decide) (by decide)).2 rfl rfl⟩

/-- C5 fails on the code for values that implement `error`, by the defect of C1. On
`NewLocalDeferred[error]()`, with `Await("a")` and `Await("b")` registered and then
`Resolve("b", errors.New("y"))` and `Resolve("a", errors.New("x"))`, both calls return no
error and the registry ends empty, but the `Await` of "a" returns `(nil, x)` and the
`Await` of "b" returns `(nil, y)`: neither receives `(v, nil)`. -/
theorem local_resolve_all_error_values :
    ((NewLocalDeferred (Option GoError) GoError).awaitAll ["a", "b"]).2
      = [("a", 0), ("b", 1)] ∧
    (((NewLocalDeferred (Option GoError) GoError).awaitAll ["a", "b"]).1.resolveAll
      [("b", some (errorsNew "y")), ("a", some (errorsNew "x"))]).2 = [none, none] ∧
    (((NewLocalDeferred (Option GoError) GoError).awaitAll ["a", "b"]).1.resolveAll
      [("b", some (errorsNew "y")), ("a", some (errorsNew "x"))]).1.promisesMap = [] ∧
    (((NewLocalDeferred (Option GoError) GoError).awaitAll ["a", "b"]).1.resolveAll
      [("b", some (errorsNew "y")), ("a", some (errorsNew "x"))]).1.futureGet
      errorValueInfo 0 = some (.returned none (some (errorsNew "x"))) ∧
    (((NewLocalDeferred (Option GoError) GoError).awaitAll ["a", "b"]).1.resolveAll
      [("b", some (errorsNew "y")), ("a", some (errorsNew "x"))]).1.futureGet
      errorValueInfo 1 = some (.returned none (some (errorsNew "y"))) ∧
    (((NewLocalDeferred (Option GoError) GoError).awaitAll ["a", "b"]).1.resolveAll
      [("b", some (errorsNew "y")), ("a", some (errorsNew "x"))]).1.futureGet
      errorValueInfo 0 ≠ some (.returned (some (errorsNew "x")) none) := by
  decide

theorem fmtDecimal_append (fuel : Nat) :
    ∀ (u : Nat) (acc : Bytes), fmtDecimal fuel u acc = fmtDecimal fuel u [] ++ acc := by
  induction fuel with
  | zero =>
    intro u acc
    rfl
  | succ f ih =>
    intro u acc
    by_cases h : 10 ≤ u
    · simp only [fmtDecimal, h, if_true]
      rw [ih (u / 10) (digitByte (u % 10) :: acc), ih (u / 10) [digitByte (u % 10)]]
      simp
    · simp only [fmtDecimal, h, if_false]
      rfl

theorem fmtDecimal_succ (f u : Nat) :
    fmtDecimal (f + 1) u [] =
      if 10 ≤ u then fmtDecimal f (u / 10) [] ++ [digitByte (u % 10)] else [digitByte u] := by
  by_cases h : 10 ≤ u
  · simp only [fmtDecimal, h, if_true]
    exact fmtDecimal_append f (u / 10) [digitByte (u % 10)]
  · simp only [fmtDecimal, h, if_false]

theorem digitByte_val (k : Nat) (hk : k < 10) : (digitByte k).val = 48 + k := by
  simp only [digitByte, Fin.ofNat, Fin.val_mk]
  omega

theorem digitByte_sub (k : Nat) (hk : k < 10) : (digitByte k - 48).val = k := by
  rw [Fin.sub_def]
  simp only [digitByte_val k hk]
  show (256 - 48 + (48 + k)) % 256 = k
  omega

theorem atoiFastLoop_append (xs : Bytes) (c : Fin 256) :
    ∀ n m, atoiFastLoop xs n = some m →
      atoiFastLoop (xs ++ [c]) n = atoiFastLoop [c] m := by
  induction xs with
  | nil =>
    intro n m h
    simp only [atoiFastLoop, Option.some.injEq] at h
    subst h
    rfl
  | cons x rest ih =>
    intro n m h
    by_cases hx : 9 < (x - 48).val
    · simp [atoiFastLoop, hx] at h
    · simp only [atoiFastLoop, hx, if_false] at h
      simp only [List.cons_append, atoiFastLoop, hx, if_false]
      exact ih _ m h

theorem atoiFastLoop_fmtDecimal (fuel : Nat) :
    ∀ u, u < 10 ^ fuel → 0 < fuel → atoiFastLoop (fmtDecimal fuel u []) 0 = some u := by
  induction fuel with
  | zero =>
    intro u _ h
    exact absurd h (Nat.lt_irrefl 0)
  | succ f ih =>
    intro u hu _
    rw [fmtDecimal_succ]
    by_cases h : 10 ≤ u
    · have hf : 0 < f := by
        rcases Nat.eq_zero_or_pos f with h0 | h0
        · subst h0
          simp at hu
          omega
        · exact h0
      have hdiv : u / 10 < 10 ^ f := by
        rw [Nat.div_lt_iff_lt_mul (by decide)]
        rw [pow_succ] at hu
        exact hu
      simp only [h, if_true]
      rw [atoiFastLoop_append _ _ 0 (u / 10) (ih (u / 10) hdiv hf)]
      have hm : u % 10 < 10 := Nat.mod_lt _ (by decide)
      have h9 : ¬ 9 < u % 10 := by omega
      simp only [atoiFastLoop, digitByte_sub _ hm, h9, if_false]
      congr 1
      omega
    · have hlt : u < 10 := Nat.lt_of_not_le h
      have h9 : ¬ 9 < u := by omega
      simp only [h, if_false, atoiFastLoop, digitByte_sub _ hlt, h9]
      simp

theorem parseUintLoop_append (xs : Bytes) (c : Fin 256) :
    ∀ n m, parseUintLoop xs n = (m, none) →
      parseUintLoop (xs ++ [c]) n = parseUintLoop [c] m := by
  induction xs with
  | nil =>
    intro n m h
    simp only [parseUintLoop, Prod.mk.injEq, and_true] at h
    subst h
    rfl
  | cons x rest ih =>
    intro n m h
    by_cases hx : 48 ≤ x.val ∧ x.val ≤ 57
    · by_cases hc : (2 ^ 64 - 1) / 10 + 1 ≤ n
      · simp only [parseUintLoop, hx, hc, if_true, and_self] at h
        exact absurd (congrArg Prod.snd h) (by simp)
      · by_cases ho : (n * 10 % 2 ^ 64 + (x.val - 48)) % 2 ^ 64 < n * 10 % 2 ^ 64
        · simp only [parseUintLoop, hx, hc, ho, if_true, if_false, and_self] at h
          exact absurd (congrArg Prod.snd h) (by simp)
        · simp only [parseUintLoop, hx, hc, ho, if_true, if_false, and_self] at h
          simp only [List.cons_append, parseUintLoop, hx, hc, ho, if_true, if_false,
            and_self]
          exact ih _ m h
    · simp only [parseUintLoop, hx, if_false] at h
      exact absurd (congrArg Prod.snd h) (by simp)

theorem parseUintLoop_digit (k n : Nat) (hk : k < 10) (hn : n * 10 + k < 2 ^ 64) :
    parseUintLoop [digitByte k] n = (n * 10 + k, none) := by
  have hv := digitByte_val k hk
  have h1 : 48 ≤ (digitByte k).val ∧ (digitByte k).val ≤ 57 := by omega
  have h2 : ¬ (2 ^ 64 - 1) / 10 + 1 ≤ n := by omega
  have h3 : n * 10 % 2 ^ 64 = n * 10 := Nat.mod_eq_of_lt (by omega)
  have h4 : (n * 10 + ((digitByte k).val - 48)) % 2 ^ 64 = n * 10 + k := by
    rw [hv, Nat.add_sub_cancel_left]
    exact Nat.mod_eq_of_lt hn
  have h5 : ¬ n * 10 + k < n * 10 := by omega
  simp only [parseUintLoop, h1, h2, h3, h4, h5, if_true, if_false, and_self]

theorem parseUintLoop_fmtDecimal (fuel : Nat) :
    ∀ u, u < 10 ^ fuel → 0 < fuel → u < 2 ^ 64 →
      parseUintLoop (fmtDecimal fuel u []) 0 = (u, none) := by
  induction fuel with
  | zero =>
    intro u _ h
    exact absurd h (Nat.lt_irrefl 0)
  | succ f ih =>
    intro u hu _ hmax
    rw [fmtDecimal_succ]
    by_cases h : 10 ≤ u
    · have hf : 0 < f := by
        rcases Nat.eq_zero_or_pos f with h0 | h0
        · subst h0
          simp at hu
          omega
        · exact h0
      have hdiv : u / 10 < 10 ^ f := by
        rw [Nat.div_lt_iff_lt_mul (by decide)]
        rw [pow_succ] at hu
        exact hu
      have hdm : u / 10 * 10 + u % 10 = u := by omega
      simp only [h, if_true]
      rw [parseUintLoop_append _ _ 0 (u / 10) (ih (u / 10) hdiv hf (by omega))]
      rw [parseUintLoop_digit (u % 10) (u / 10) (Nat.mod_lt _ (by decide)) (by omega), hdm]
    · have hlt : u < 10 := Nat.lt_of_not_le h
      simp only [h, if_false]
      rw [parseUintLoop_digit u 0 hlt (by omega)]
      simp

theorem fmtDecimal_digits (fuel : Nat) :
    ∀ u c, c ∈ fmtDecimal fuel u [] → 48 ≤ c.val ∧ c.val ≤ 57 := by
  induction fuel with
  | zero =>
    intro u c h
    simp [fmtDecimal] at h
  | succ f ih =>
    intro u c hc
    rw [fmtDecimal_succ] at hc
    by_cases h : 10 ≤ u
    · simp only [h, if_true, List.mem_append, List.mem_singleton] at hc
      rcases hc with hc | hc
      · exact ih _ c hc
      · rw [hc, digitByte_val _ (Nat.mod_lt _ (by decide))]
        have := Nat.mod_lt u (show 0 < 10 by decide)
        omega
    · simp only [h, if_false, List.mem_singleton] at hc
      rw [hc, digitByte_val _ (Nat.lt_of_not_le h)]
      omega

theorem fmtDecimal_ne_nil (f u : Nat) : fmtDecimal (f + 1) u [] ≠ [] := by
  rw [fmtDecimal_succ]
  by_cases h : 10 ≤ u
  · simp [h]
  · simp [h]

/-- Parsing the decimal digits of a magnitude below `2 ^ 64`, as `Atoi` does after the
sign, gives the magnitude back on both of its paths. -/
theorem atoi_digits (u : Nat) (hu : u < 2 ^ 64) :
    ∃ c rest, fmtDecimal 20 u [] = c :: rest ∧ c ≠ 45 ∧ c ≠ 43 ∧
      atoiFastLoop (c :: rest) 0 = some u ∧ parseUintLoop (c :: rest) 0 = (u, none) := by
  have h20 : u < 10 ^ 20 := by
    have : (2 : Nat) ^ 64 < 10 ^ 20 := by norm_num
    omega
  cases hds : fmtDecimal 20 u [] with
  | nil => exact absurd hds (fmtDecimal_ne_nil 19 u)
  | cons c rest =>
    have hdig := fmtDecimal_digits 20 u c (by rw [hds]; exact List.mem_cons_self _ _)
    refine ⟨c, rest, rfl, ?_, ?_, ?_, ?_⟩
    · rintro rfl
      have : (45 : Fin 256).val = 45 := rfl
      omega
    · rintro rfl
      have : (43 : Fin 256).val = 43 := rfl
      omega
    · rw [← hds]
      exact atoiFastLoop_fmtDecimal 20 u h20 (by decide)
    · rw [← hds]
      exact parseUintLoop_fmtDecimal 20 u h20 (by decide) hu

/-- The codec of the test round-trips every 64-bit `int`: `Atoi` of the decimal text of `i`
is `i` with a nil error. -/
theorem atoi_sprintfD (i : Int) (hlo : -(2 ^ 63) ≤ i) (hhi : i < 2 ^ 63) :
    Atoi (sprintfD i) = (i, none) := by
  have hu : i.natAbs < 2 ^ 64 := by omega
  obtain ⟨c, rest, hds, h45, h43, hfast, hslow⟩ := atoi_digits i.natAbs hu
  by_cases hneg : i < 0
  · have hval : -|i| = i := by
      rw [abs_of_neg hneg]
      exact neg_neg i
    have hle : ¬ (9223372036854775808 < i.natAbs) := by omega
    simp only [sprintfD, hneg, if_true, hds]
    by_cases hlen : rest.length + 1 + 1 < 19
    · simp [Atoi, hlen, hfast, hval]
    · simp [Atoi, hlen, ParseInt, ParseUint, hslow, hle, hval]
  · have hval : |i| = i := abs_of_nonneg (by omega)
    have hlt : ¬ (9223372036854775808 ≤ i.natAbs) := by omega
    simp only [sprintfD, hneg, if_false, hds]
    by_cases hlen : rest.length + 1 < 19
    · simp [Atoi, hlen, h45, h43, hfast, hval]
    · simp [Atoi, hlen, ParseInt, ParseUint, h45, h43, hslow, hlt, hval]

theorem chanSend_waiting {T : Type} (d : RedisDeferred T) (c : Nat) (v : ChanValue T)
    (hwait : d.chans[c]? = some none) :
    d.chanSend c v = some { d with chans := d.chans.set c (some v) } := by
  simp [RedisDeferred.chanSend, hwait]

theorem chans_set_self {T : Type} (chans : List (Option (ChanValue T))) (c : Nat)
    (v : ChanValue T) (hwait : chans[c]? = some none) :
    (chans.set c (some v))[c]? = some (some v) := by
  have hlt : c < chans.length := by
    by_contra hge
    rw [List.getElem?_eq_none (Nat.le_of_not_lt hge)] at hwait
    exact absurd hwait (by simp)
  simp [hlt]

theorem chans_set_ne {T : Type} (chans : List (Option (ChanValue T))) (c q : Nat)
    (v : ChanValue T) (hne : q ≠ c) : (chans.set c (some v))[q]? = chans[q]? := by
  have : ¬ c = q := fun e => hne e.symm
  simp [List.getElem?_set, this]

theorem awaitReturn_received {T : Type} [Inhabited T] (d : RedisDeferred T) (t : String)
    (c : Nat) (v : ChanValue T) (h : d.chans[c]? = some (some v)) :
    d.awaitReturn t c
      = some ({ d with channels := mapDelete d.channels t }, d.awaitSwitch v) := by
  simp [RedisDeferred.awaitReturn, h]

/-- C6. Distributed round trip with the codec of the test, on a 64-bit `int`. For a ticket
`t` whose channel `c` is registered with its receiver blocked, `Resolve(t, i)` hands to
`PUBLISH` the envelope with ticket `t`, value `marshal(i)` and no error, and returns what
the publish returned; dispatching that envelope sends the decoded `i` on `c` and touches
no other channel; the `Await(t)` that owns `c` then returns `(i, nil)` and deregisters
`t`. In particular `unmarshal(marshal(i))` is `i` with a nil error, for negative `i` too. -/
theorem redis_resolve_round_trip (d : RedisDeferred Int) (t : String) (c : Nat) (i : Int)
    (publish : Option GoError) (hopt : d.options = testOptions)
    (hty : d.typeInfo = intTypeInfo) (hreg : mapGet d.channels t = some c)
    (hwait : d.chans[c]? = some none) (hlo : -(2 ^ 63) ≤ i) (hhi : i < 2 ^ 63) :
    d.Resolve t i publish
      = (some { Ticket := t, Error := "", Value := (testMarshal i).1 }, publish) ∧
    d.pollSelect { Ticket := t, Error := "", Value := (testMarshal i).1 }
      = .send c (.val i) ∧
    (∃ d1 d2, d.pollDispatch { Ticket := t, Error := "", Value := (testMarshal i).1 }
        = some d1 ∧
      d1.chans[c]? = some (some (.val i)) ∧
      (∀ q, q ≠ c → d1.chans[q]? = d.chans[q]?) ∧
      d1.awaitReturn t c = some (d2, .returned i none) ∧
      mapGet d2.channels t = none) ∧
    testUnmarshal (testMarshal i).1 0 = (i, none) := by
  have hrt : testUnmarshal (testMarshal i).1 0 = (i, none) := atoi_sprintfD i hlo hhi
  have hsel : d.pollSelect { Ticket := t, Error := "", Value := (testMarshal i).1 }
      = .send c (.val i) := by
    have hu : testOptions.unmarshal (testMarshal i).1 0 = (i, none) := hrt
    simp [RedisDeferred.pollSelect, hreg, hopt, hty, intTypeInfo, hu]
  refine ⟨?_, hsel, ?_, hrt⟩
  · simp [RedisDeferred.Resolve, hopt, testOptions, testMarshal]
  · refine ⟨{ d with chans := d.chans.set c (some (.val i)) },
      { d with chans := d.chans.set c (some (.val i)), channels := mapDelete d.channels t },
      ?_, chans_set_self _ _ _ hwait, fun q hq => chans_set_ne _ _ _ _ hq, ?_,
      mapGet_mapDelete_self _ _⟩
    · simp only [RedisDeferred.pollDispatch, hsel]
      exact chanSend_waiting d c _ hwait
    · rw [awaitReturn_received _ t c _ (chans_set_self _ _ _ hwait)]
      simp [RedisDeferred.awaitSwitch, hty, intTypeInfo]

theorem redis_resolve_round_trip_witness :
    (((NewRedisDeferred "test-redis-deferred" testOptions intTypeInfo).Await "7").1.Resolve
      "7" (-7) none).1 = some { Ticket := "7", Error := "", Value := [45, 55] } ∧
    testUnmarshal (testMarshal (-7)).1 0 = (-7, none) := by
  have h := redis_resolve_round_trip
    ((NewRedisDeferred "test-redis-deferred" testOptions intTypeInfo).Await "7").1 "7" 0 (-7)
    none rfl rfl (by decide) (by decide) (by decide) (by decide)
  exact ⟨by rw [h.1]; rfl, h.2.2.2⟩

/-- The error path of the dispatch for a message that is not empty: with the channel `c`
of ticket `t` registered and its receiver blocked, the envelope of `Reject(t, e)` makes the
task send `errors.New(e.Error())` on `c`, and the `Await(t)` that owns `c` returns the zero
value with that error. -/
theorem redis_reject_delivers_message {T : Type} [Inhabited T] (d : RedisDeferred T)
    (t : String) (c : Nat) (e : GoError) (publish : Option GoError)
    (hreg : mapGet d.channels t = some c) (hwait : d.chans[c]? = some none)
    (hmsg : e.msg ≠ "") :
    d.Reject t e publish = (some { Ticket := t, Error := e.msg, Value := [] }, publish) ∧
    ∃ d1 d2, d.pollDispatch { Ticket := t, Error := e.msg, Value := [] } = some d1 ∧
      d1.chans[c]? = some (some (.err (errorsNew e.msg))) ∧
      d1.awaitReturn t c = some (d2, .returned default (some (errorsNew e.msg))) := by
  refine ⟨rfl, { d with chans := d.chans.set c (some (.err (errorsNew e.msg))) },
    { d with chans := d.chans.set c (some (.err (errorsNew e.msg))),
             channels := mapDelete d.channels t },
    ?_, chans_set_self _ _ _ hwait, ?_⟩
  · have hsel : d.pollSelect { Ticket := t, Error := e.msg, Value := [] }
        = .send c (.err (errorsNew e.msg)) := by
      simp [RedisDeferred.pollSelect, hreg, hmsg]
    simp only [RedisDeferred.pollDispatch, hsel]
    exact chanSend_waiting d c _ hwait
  · rw [awaitReturn_received _ t c _ (chans_set_self _ _ _ hwait)]
    rfl

theorem redis_reject_delivers_message_witness :
    ∃ d1 d2, ((NewRedisDeferred "n" testOptions intTypeInfo).Await "t").1.pollDispatch
        { Ticket := "t", Error := "boom", Value := [] } = some d1 ∧
      d1.chans[0]? = some (some (.err (errorsNew "boom"))) ∧
      d1.awaitReturn "t" 0 = some (d2, .returned default (some (errorsNew "boom"))) :=
  (redis_reject_delivers_message
    ((NewRedisDeferred "n" testOptions intTypeInfo).Await "t").1 "t" 0 (errorsNew "boom")
    none (by decide) (by decide) (by decide)).2

/-- C7 fails on an error whose message is empty. With the codec of the test and a waiter
registered for "t", `Reject("t", errors.New(""))` builds an envelope whose error field is
empty; the dispatch takes it for a success envelope, runs unmarshal on the empty value and
sends the syntax error of `Atoi`, so `Await("t")` returns an error whose message is
not the message of the rejected error. -/
theorem redis_reject_empty_message :
    (((NewRedisDeferred "n" testOptions intTypeInfo).Await "t").1.Reject "t" (errorsNew "")
      none).1 = some { Ticket := "t", Error := "", Value := [] } ∧
    ((NewRedisDeferred "n" testOptions intTypeInfo).Await "t").1.pollSelect
      { Ticket := "t", Error := "", Value := [] }
      = .send 0 (.err (numError "Atoi" [] .invalid)) ∧
    (((NewRedisDeferred "n" testOptions intTypeInfo).Await "t").1.pollDispatch
      { Ticket := "t", Error := "", Value := [] }).bind
        (fun d1 => (d1.awaitReturn "t" 0).map Prod.snd)
      = some (.returned 0 (some (numError "Atoi" [] .invalid))) ∧
    (numError "Atoi" [] .invalid).msg = "strconv.Atoi: parsing \"\": invalid syntax" ∧
    (numError "Atoi" [] .invalid).msg ≠ (errorsNew "").msg := by
  refine ⟨rfl, ?_, ?_, ?_, ?_⟩
  · decide
  · decide
  · decide
  · decide

/-- C8. Distributed mode: a decoded envelope whose ticket has no channel in this registry
is dropped: nothing is sent, the dispatch returns the registry as it was, and the task
stays subscribed. An `Await(t)` registered afterwards starts on a fresh channel on which
nothing has been received, so it stays blocked: the dropped message is not delivered
later. -/
theorem redis_unregistered_dropped {T : Type} [Inhabited T]
    (jsonUnmarshal : Bytes → Option RedisDeferredResult) (d : RedisDeferred T)
    (result : RedisDeferredResult) (data : Bytes) (n : Nat)
    (hfree : mapGet d.channels result.Ticket = none)
    (hdec : jsonUnmarshal data = some result) :
    d.pollSelect result = .dropped ∧
    d.pollDispatch result = some d ∧
    pollStep jsonUnmarshal (d, { phase := .subscribed, failures := n })
        (.receive (.message data))
      = some (d, { phase := .subscribed, failures := n }) ∧
    (∀ d1, d.pollDispatch result = some d1 → ∀ t,
      (d1.Await t).1.chans[(d1.Await t).2]? = some none ∧
      (d1.Await t).1.awaitReturn t (d1.Await t).2 = none ∧
      d1.Await t = d.Await t) := by
  have hsel : d.pollSelect result = .dropped := by
    simp [RedisDeferred.pollSelect, hfree]
  have hdis : d.pollDispatch result = some d := by
    simp [RedisDeferred.pollDispatch, hsel]
  refine ⟨hsel, hdis, ?_, ?_⟩
  · simp [pollStep, hdec, hsel]
  · intro d1 h1 t
    rw [hdis] at h1
    cases h1
    have hnew : (d.Await t).1.chans[(d.Await t).2]? = some none := by
      simp [RedisDeferred.Await]
    refine ⟨hnew, ?_, rfl⟩
    simp [RedisDeferred.awaitReturn, hnew]

theorem redis_unregistered_dropped_witness :
    ((NewRedisDeferred "n" testOptions intTypeInfo).Await "a").1.pollDispatch
        { Ticket := "b", Error := "", Value := [49] }
      = some ((NewRedisDeferred "n" testOptions intTypeInfo).Await "a").1 :=
  (redis_unregistered_dropped
    (fun _ => some { Ticket := "b", Error := "", Value := [49] })
    ((NewRedisDeferred "n" testOptions intTypeInfo).Await "a").1
    { Ticket := "b", Error := "", Value := [49] } [] 0 (by decide) rfl).2.1

/-- C9. Dispatch of a success envelope (empty error field) whose ticket has the channel
`c` registered with its receiver blocked. If `reflect.TypeOf` of the zero value of `T` is
nil, `c` receives the raw value bytes of the envelope, whatever the configured options
are (unmarshal plays no part). Otherwise `c` receives the value unmarshal produced when it
returns a nil error, and the error it returned when it fails; in the failing case the
`Await` that owns `c` returns the zero value with that error. -/
theorem redis_dispatch_success_envelope {T : Type} [Inhabited T] (d : RedisDeferred T)
    (result : RedisDeferredResult) (c : Nat)
    (hreg : mapGet d.channels result.Ticket = some c) (hok : result.Error = "")
    (hwait : d.chans[c]? = some none) :
    (d.typeInfo.zeroTypeIsNil = true → ∀ options : RedisDeferredOptions T,
      ({ d with options := options } : RedisDeferred T).pollDispatch result
        = some { d with options := options,
                        chans := d.chans.set c (some (.raw result.Value)) }) ∧
    (d.typeInfo.zeroTypeIsNil = false → ∀ v,
      d.options.unmarshal result.Value default = (v, none) →
      d.pollDispatch result = some { d with chans := d.chans.set c (some (.val v)) }) ∧
    (d.typeInfo.zeroTypeIsNil = false → ∀ v e,
      d.options.unmarshal result.Value default = (v, some e) →
      d.pollDispatch result = some { d with chans := d.chans.set c (some (.err e)) } ∧
      ({ d with chans := d.chans.set c (some (.err e)) } : RedisDeferred T).awaitReturn
          result.Ticket c
        = some ({ d with chans := d.chans.set c (some (.err e)),
                         channels := mapDelete d.channels result.Ticket },
                .returned default (some e))) := by
  refine ⟨?_, ?_, ?_⟩
  · intro hnil options
    have hsel : ({ d with options := options } : RedisDeferred T).pollSelect result
        = .send c (.raw result.Value) := by
      simp [RedisDeferred.pollSelect, hreg, hok, hnil]
    simp only [RedisDeferred.pollDispatch, hsel]
    exact chanSend_waiting _ c _ hwait
  · intro hty v hv
    have hsel : d.pollSelect result = .send c (.val v) := by
      simp [RedisDeferred.pollSelect, hreg, hok, hty, hv]
    simp only [RedisDeferred.pollDispatch, hsel]
    exact chanSend_waiting _ c _ hwait
  · intro hty v e hv
    have hsel : d.pollSelect result = .send c (.err e) := by
      simp [RedisDeferred.pollSelect, hreg, hok, hty, hv]
    refine ⟨?_, ?_⟩
    · simp only [RedisDeferred.pollDispatch, hsel]
      exact chanSend_waiting _ c _ hwait
    · rw [awaitReturn_received _ result.Ticket c _ (chans_set_self _ _ _ hwait)]
      rfl

theorem redis_dispatch_success_envelope_witness :
    ((NewRedisDeferred "n" testOptions intTypeInfo).Await "t").1.pollDispatch
        { Ticket := "t", Error := "", Value := [52, 50] }
      = some { ((NewRedisDeferred "n" testOptions intTypeInfo).Await "t").1 with
               chans := [some (.val 42)] } :=
  (redis_dispatch_success_envelope
    ((NewRedisDeferred "n" testOptions intTypeInfo).Await "t").1
    { Ticket := "t", Error := "", Value := [52, 50] } 0 (by decide) rfl (by decide)).2.1
    rfl 42 (by decide)

theorem pollStep_not_stopped {T : Type} [Inhabited T]
    (jsonUnmarshal : Bytes → Option RedisDeferredResult)
    (s s1 : RedisDeferred T × PollState) (ev : PollEvent)
    (hs : s.2.phase ≠ .stopped) (h : pollStep jsonUnmarshal s ev = some s1) :
    s1.2.phase ≠ .stopped := by
  obtain ⟨d, ph, n⟩ := s
  unfold pollStep at h
  by_cases hp : ph = .panicked
  · simp [hp] at h
  · simp only [hp, if_false] at h
    cases ev with
    | await ticket =>
      simp only [Option.some.injEq] at h
      subst h
      exact hs
    | awaitReturn ticket =>
      simp only at h
      cases hget : mapGet d.channels ticket with
      | none => simp [hget] at h
      | some channel =>
        simp only [hget] at h
        cases hret : d.awaitReturn ticket channel with
        | none => simp [hret] at h
        | some r =>
          simp only [hret] at h
          by_cases hsend : ph = .sending channel
          · simp only [hsend, if_true, Option.some.injEq] at h
            subst h
            simp
          · simp only [hsend, if_false, Option.some.injEq] at h
            subst h
            exact hs
    | subscribe err =>
      cases ph <;> simp only [reduceCtorEq] at h
      cases err with
      | none =>
        simp only [Option.some.injEq] at h
        subst h
        simp
      | some e =>
        simp only [Option.some.injEq] at h
        subst h
        simp
    | receive r =>
      cases ph <;> simp only [reduceCtorEq] at h
      cases r with
      | error e =>
        simp only [Option.some.injEq] at h
        subst h
        simp
      | subscription count =>
        by_cases hc : count = 0
        · simp only [hc, if_true, Option.some.injEq] at h
          subst h
          simp
        · simp only [hc, if_false, Option.some.injEq] at h
          subst h
          simp
      | message data =>
        simp only at h
        cases hdec : jsonUnmarshal data with
        | none =>
          simp only [hdec, Option.some.injEq] at h
          subst h
          simp
        | some result =>
          simp only [hdec] at h
          cases hsel : RedisDeferred.pollSelect d result with
          | dropped =>
            simp only [hsel, Option.some.injEq] at h
            subst h
            simp
          | send channel v =>
            simp only [hsel] at h
            cases hsend : RedisDeferred.chanSend d channel v with
            | none =>
              simp only [hsend, Option.some.injEq] at h
              subst h
              simp
            | some d1 =>
              simp only [hsend, Option.some.injEq] at h
              subst h
              simp
      | pong =>
        simp only [Option.some.injEq] at h
        subst h
        simp
    | waited ms =>
      cases ph <;> simp only [reduceCtorEq] at h
      by_cases hm : retryAgain pollAttempts n = true ∧ ms = pollDelay
      · simp only [hm, and_self, if_true, Option.some.injEq] at h
        subst h
        simp
      · simp only [hm, if_false, reduceCtorEq] at h
    | giveUp =>
      cases ph <;> simp only [reduceCtorEq] at h
      simp [retryAgain, pollAttempts] at h

theorem pollRun_not_stopped {T : Type} [Inhabited T]
    (jsonUnmarshal : Bytes → Option RedisDeferredResult) (evs : List PollEvent) :
    ∀ (s s1 : RedisDeferred T × PollState), s.2.phase ≠ .stopped →
      pollRun jsonUnmarshal s evs = some s1 → s1.2.phase ≠ .stopped := by
  induction evs with
  | nil =>
    intro s s1 hs h
    simp only [pollRun, Option.some.injEq] at h
    subst h
    exact hs
  | cons ev rest ih =>
    intro s s1 hs h
    simp only [pollRun] at h
    cases hstep : pollStep jsonUnmarshal s ev with
    | none => simp [hstep] at h
    | some s2 =>
      simp only [hstep] at h
      exact ih s2 s1 (pollStep_not_stopped jsonUnmarshal s s2 ev hs hstep) h

/-- The transitions of the subscription task. From Subscribed, a receive error and a
subscription notification with count 0 lead to Faulted; a subscription notification with
another count, a message that does not decode, a message that is dropped and a message
sent to a channel whose receiver is blocked leave the task Subscribed. A message for a
channel whose receiver has already taken a value leaves the task blocked in the send, and
the return of the `Await` that owns the channel then makes it panic, after which no event
takes place. From Faulted, whatever the number of failures so far, the wait of 1000 ms
leads back to Connecting, no other wait does, giving up is never possible, and every
successor is Faulted or Connecting. No run from Connecting reaches the stopped state:
`retry.Do` never returns. -/
theorem poll_transitions {T : Type} [Inhabited T]
    (jsonUnmarshal : Bytes → Option RedisDeferredResult) (d : RedisDeferred T) (n : Nat) :
    (∀ e, pollStep jsonUnmarshal (d, { phase := .subscribed, failures := n })
        (.receive (.error e)) = some (d, { phase := .faulted, failures := n + 1 })) ∧
    pollStep jsonUnmarshal (d, { phase := .subscribed, failures := n })
        (.receive (.subscription 0)) = some (d, { phase := .faulted, failures := n + 1 }) ∧
    (∀ count, count ≠ 0 →
      pollStep jsonUnmarshal (d, { phase := .subscribed, failures := n })
        (.receive (.subscription count))
        = some (d, { phase := .subscribed, failures := n })) ∧
    (∀ data, jsonUnmarshal data = none →
      pollStep jsonUnmarshal (d, { phase := .subscribed, failures := n })
        (.receive (.message data)) = some (d, { phase := .subscribed, failures := n })) ∧
    (∀ data result, jsonUnmarshal data = some result → d.pollSelect result = .dropped →
      pollStep jsonUnmarshal (d, { phase := .subscribed, failures := n })
        (.receive (.message data)) = some (d, { phase := .subscribed, failures := n })) ∧
    (∀ data result c v, jsonUnmarshal data = some result →
      d.pollSelect result = .send c v → d.chans[c]? = some none →
      pollStep jsonUnmarshal (d, { phase := .subscribed, failures := n })
        (.receive (.message data))
        = some ({ d with chans := d.chans.set c (some v) },
            { phase := .subscribed, failures := n })) ∧
    (∀ data result c v w, jsonUnmarshal data = some result →
      d.pollSelect result = .send c v → d.chans[c]? = some (some w) →
      pollStep jsonUnmarshal (d, { phase := .subscribed, failures := n })
        (.receive (.message data)) = some (d, { phase := .sending c, failures := n })) ∧
    (∀ t c w, mapGet d.channels t = some c → d.chans[c]? = some (some w) →
      pollStep jsonUnmarshal (d, { phase := .sending c, failures := n }) (.awaitReturn t)
        = some ({ d with channels := mapDelete d.channels t },
            { phase := .panicked, failures := n })) ∧
    (∀ ev, pollStep jsonUnmarshal (d, { phase := .panicked, failures := n }) ev = none) ∧
    pollDelay = 1000 ∧
    pollStep jsonUnmarshal (d, { phase := .faulted, failures := n }) (.waited 1000)
      = some (d, { phase := .connecting, failures := n }) ∧
    (∀ ms, ms ≠ 1000 →
      pollStep jsonUnmarshal (d, { phase := .faulted, failures := n }) (.waited ms)
        = none) ∧
    pollStep jsonUnmarshal (d, { phase := .faulted, failures := n }) .giveUp = none ∧
    (∀ evs s1, pollRun jsonUnmarshal (d, { phase := .connecting, failures := n }) evs
        = some s1 → s1.2.phase ≠ .stopped) := by
  refine ⟨?_, ?_, ?_, ?_, ?_, ?_, ?_, ?_, ?_, rfl, ?_, ?_, ?_, ?_⟩
  · intro e
    simp [pollStep]
  · simp [pollStep]
  · intro count hc
    simp [pollStep, hc]
  · intro data hdec
    simp [pollStep, hdec]
  · intro data result hdec hsel
    simp [pollStep, hdec, hsel]
  · intro data result c v hdec hsel hwait
    simp [pollStep, hdec, hsel, chanSend_waiting d c v hwait]
  · intro data result c v w hdec hsel hfull
    simp [pollStep, hdec, hsel, RedisDeferred.chanSend, hfull]
  · intro t c w hreg hfull
    simp [pollStep, hreg, awaitReturn_received d t c w hfull]
  · intro ev
    simp [pollStep]
  · simp [pollStep, retryAgain, pollAttempts, pollDelay]
  · intro ms hms
    simp [pollStep, pollDelay, hms]
  · simp [pollStep, retryAgain, pollAttempts]
  · intro evs s1 h
    exact pollRun_not_stopped jsonUnmarshal evs
      (d, { phase := .connecting, failures := n }) s1 (by simp) h

theorem poll_transitions_witness :
    pollStep (fun _ => some { Ticket := "t", Error := "", Value := [49] })
        (((NewRedisDeferred "n" testOptions intTypeInfo).Await "t").1,
          { phase := .subscribed, failures := 0 }) (.receive (.message []))
      = some ({ ((NewRedisDeferred "n" testOptions intTypeInfo).Await "t").1 with
                chans := [some (.val 1)] }, { phase := .subscribed, failures := 0 }) :=
  (poll_transitions (fun _ => some { Ticket := "t", Error := "", Value := [49] })
    ((NewRedisDeferred "n" testOptions intTypeInfo).Await "t").1 0).2.2.2.2.2.1
    [] { Ticket := "t", Error := "", Value := [49] } 0 (.val 1) rfl (by decide) (by decide)

/-- C10 fails on the code in its last part: a terminal state of the task is reachable.
With the codec of the test, after `Await("t")` has registered its channel and the task has
subscribed, a first message for "t" is delivered and leaves the task Subscribed; a second
message for "t", received before that `Await` has deleted its ticket, finds the same
channel and leaves the task blocked in the send; when the `Await` then returns and closes
the channel the task panics, and from there no event takes place. -/
theorem poll_second_message_panics :
    (pollRun (fun _ => some { Ticket := "t", Error := "", Value := [49] })
        (NewRedisDeferred "n" testOptions intTypeInfo, { phase := .connecting, failures := 0 })
        [.await "t", .subscribe none, .receive (.message [])]).map
        (fun s => (s.1.channels, s.1.chans, s.2))
      = some ([("t", 0)], [some (.val 1)], { phase := .subscribed, failures := 0 }) ∧
    (pollRun (fun _ => some { Ticket := "t", Error := "", Value := [49] })
        (NewRedisDeferred "n" testOptions intTypeInfo, { phase := .connecting, failures := 0 })
        [.await "t", .subscribe none, .receive (.message []), .receive (.message [])]).map
        (fun s => (s.1.channels, s.1.chans, s.2))
      = some ([("t", 0)], [some (.val 1)], { phase := .sending 0, failures := 0 }) ∧
    (pollRun (fun _ => some { Ticket := "t", Error := "", Value := [49] })
        (NewRedisDeferred "n" testOptions intTypeInfo, { phase := .connecting, failures := 0 })
        [.await "t", .subscribe none, .receive (.message []), .receive (.message []),
         .awaitReturn "t"]).map (fun s => (s.1.channels, s.1.chans, s.2))
      = some ([], [some (.val 1)], { phase := .panicked, failures := 0 }) ∧
    (∀ (d : RedisDeferred Int) (n : Nat) (ev : PollEvent),
      pollStep (fun _ => some { Ticket := "t", Error := "", Value := [49] })
        (d, { phase := .panicked, failures := n }) ev = none) := by
  refine ⟨by decide, by decide, by decide, ?_⟩
  intro d n ev
  simp [pollStep]

end Deferred
